/-
Verification of the boatflix2 download-queue and playlist-sync core.

Shallow embedding of `services/download_queue.py` (DownloadQueueManager)
and `services/youtube_sync_simple.py` (YouTubeSyncSimple) from the
fastapi-manager application, together with proofs of the behavioural
properties the specification states about them.

Modelling conventions:
  * job ids (uuid4 strings in the source) are modelled as naturals drawn
    from a fresh counter;
  * wall-clock timestamps (datetime.now()) are naturals supplied as
    explicit `now` arguments;
  * the SQLAlchemy-backed job table is a `List Job` kept in insertion
    order (insertion order coincides with ascending created_at in the
    reachable states we quantify over, and `get_next_pending` below
    selects the minimum created_at exactly as the SQL query does);
  * the external downloader (ytdlp_service.download) is an oracle
    argument of type `Except String String`: `.ok path` for a successful
    download returning an output path, `.error e` for a raised exception
    whose str() is `e`; intermediate progress_callback invocations are an
    explicit list of (now, progress) ticks;
  * the external extractor (extract_playlist_items) is likewise an
    `Except String (List RemoteItem)` oracle, and the possibility that
    `download_queue.add_job` raises for a given video is an oracle
    `jobFail : String → Bool`.
-/
import Mathlib

namespace Boatflix

/-! ## Data model: `models/download.py` and `models/db.py` -/

/-- `DownloadStatus` from models/download.py. -/
inductive DownloadStatus where
  | pending
  | analyzing
  | downloading
  | completed
  | failed
  | cancelled
deriving DecidableEq, Repr

/-- `MediaType` from models/download.py. -/
inductive MediaType where
  | movie
  | tv
  | music
  | commercial
deriving DecidableEq, Repr

/-- The kind-tagged metadata payload (MovieMetadata / MusicMetadata are the
two shapes the sync service constructs; the remaining fields it never sets
are omitted as their defaults). -/
inductive Metadata where
  | music (artist : String) (album : Option String) (track : String)
  | movie (title : String)
deriving DecidableEq, Repr

/-- A row of the `downloads` table (models/db.py `Download`), restricted to
the fields the queue manager reads or writes. -/
structure Job where
  id : Nat
  url : String
  media_type : MediaType
  metadata : Metadata
  status : DownloadStatus
  progress : Nat
  error : Option String
  output_path : Option String
  created_at : Nat
  started_at : Option Nat
  completed_at : Option Nat
deriving DecidableEq, Repr

/-! ## `services/download_queue.py`: DownloadQueueManager -/

/-- The row created by `add_job`: status PENDING, created_at = now, all
other mutable fields at their column defaults (progress 0.0, error NULL,
output_path NULL, started_at NULL, completed_at NULL). -/
def newJob (id : Nat) (url : String) (mt : MediaType) (md : Metadata)
    (now : Nat) : Job :=
  { id := id
    url := url
    media_type := mt
    metadata := md
    status := DownloadStatus.pending
    progress := 0
    error := none
    output_path := none
    created_at := now
    started_at := none
    completed_at := none }

/-- `add_job` (download_queue.py lines 43-89), called without a caller
session: the new Download row is committed immediately in a session of its
own.  `id` is the fresh uuid. -/
def add_job (jobs : List Job) (id : Nat) (url : String) (mt : MediaType)
    (md : Metadata) (now : Nat) : List Job :=
  jobs ++ [newJob id url mt md now]

/-- The status assignment of `update_job` (download_queue.py lines
113-118): write the new status; entering DOWNLOADING stamps started_at,
entering COMPLETED or FAILED stamps completed_at. -/
def applyStatus (now : Nat) (st : DownloadStatus) (j : Job) : Job :=
  let j := { j with status := st }
  if st = DownloadStatus.downloading then
    { j with started_at := some now }
  else if st = DownloadStatus.completed ∨ st = DownloadStatus.failed then
    { j with completed_at := some now }
  else j

/-- The field updates `update_job` applies to the matched row: each
parameter that is not None overwrites the corresponding column
(download_queue.py lines 113-127). -/
def updateFields (now : Nat) (status : Option DownloadStatus)
    (progress : Option Nat) (error : Option String)
    (output_path : Option String) (j : Job) : Job :=
  let j :=
    match status with
    | some st => applyStatus now st j
    | none => j
  let j :=
    match progress with
    | some p => { j with progress := p }
    | none => j
  let j :=
    match error with
    | some e => { j with error := some e }
    | none => j
  match output_path with
  | some p => { j with output_path := some p }
  | none => j

/-- `update_job` (download_queue.py lines 99-129): look the row up by id,
apply the provided fields, commit; silently a no-op when the id is not
present. -/
def update_job (jobs : List Job) (job_id : Nat) (now : Nat)
    (status : Option DownloadStatus) (progress : Option Nat)
    (error : Option String) (output_path : Option String) : List Job :=
  jobs.map fun j =>
    if j.id = job_id then updateFields now status progress error output_path j
    else j

/-- `get_job` (download_queue.py lines 91-97): primary-key lookup. -/
def get_job (jobs : List Job) (job_id : Nat) : Option Job :=
  jobs.find? fun j => j.id = job_id

/-- `get_next_pending` (download_queue.py lines 207-219): the PENDING row
with the smallest created_at. -/
def get_next_pending (jobs : List Job) : Option Job :=
  (jobs.filter fun j => j.status = DownloadStatus.pending).foldl
    (fun acc j =>
      match acc with
      | none => some j
      | some k => if j.created_at < k.created_at then some j else acc)
    none

/-- `cancel_job` (download_queue.py lines 282-292): returns False when the
job is missing or its status is COMPLETED or CANCELLED; otherwise writes
status CANCELLED through `update_job` and returns True.  (FAILED is absent
from the guard.) -/
def cancel_job (jobs : List Job) (job_id : Nat) (now : Nat) :
    Bool × List Job :=
  match get_job jobs job_id with
  | none => (false, jobs)
  | some j =>
      if j.status = DownloadStatus.completed ∨
          j.status = DownloadStatus.cancelled then
        (false, jobs)
      else
        (true, update_job jobs job_id now (some DownloadStatus.cancelled)
          none none none)

/-- `process_job` (download_queue.py lines 221-255) on a downloader oracle:
set DOWNLOADING, apply the progress callbacks the downloader fires, then on
success write COMPLETED / progress 100 / output_path, and on a raised
exception write FAILED / error str(e).  The except-clause means the
function always returns normally. -/
def process_job (jobs : List Job) (job_id : Nat) (t1 : Nat)
    (ticks : List (Nat × Nat)) (result : Except String String) (t2 : Nat) :
    List Job :=
  let jobs := update_job jobs job_id t1 (some DownloadStatus.downloading)
    none none none
  let jobs := ticks.foldl
    (fun js tk => update_job js job_id tk.1 none (some tk.2) none none) jobs
  match result with
  | Except.ok path =>
      update_job jobs job_id t2 (some DownloadStatus.completed) (some 100)
        none (some path)
  | Except.error e =>
      update_job jobs job_id t2 (some DownloadStatus.failed) none (some e)
        none

/-! ## Worker transition system

`start_worker` (download_queue.py lines 257-276) is a single sequential
loop: pick the next pending job with `get_next_pending`, run `process_job`
on it to completion, repeat.  `QStep` is the step relation on the whole
system: HTTP-triggered `add_job` and `cancel_job` interleave freely with
the worker, whose execution of one `process_job` is decomposed into its
observable sub-steps (the DOWNLOADING write, each progress-callback write,
the final COMPLETED/FAILED write).  `worker` holds `self._current_job_id`:
`some id` while `process_job` is between its first and last update. -/

/-- The whole-system state: the `downloads` table, the worker's current
job id, and the supply of fresh uuids. -/
structure QState where
  jobs : List Job
  worker : Option Nat
  nextId : Nat
deriving Repr

/-- The empty starting state: no rows, worker idle. -/
def initQ : QState := { jobs := [], worker := none, nextId := 0 }

/-- One observable step of the system made of `add_job`, `cancel_job` and
the single worker loop. -/
inductive QStep : QState → QState → Prop where
  | add (s : QState) (url : String) (mt : MediaType) (md : Metadata)
      (now : Nat) :
      QStep s { jobs := add_job s.jobs s.nextId url mt md now
                worker := s.worker
                nextId := s.nextId + 1 }
  | pick (s : QState) (j : Job) (now : Nat) (hw : s.worker = none)
      (hj : get_next_pending s.jobs = some j) :
      QStep s { jobs := update_job s.jobs j.id now
                  (some DownloadStatus.downloading) none none none
                worker := some j.id
                nextId := s.nextId }
  | tick (s : QState) (w : Nat) (now p : Nat) (hw : s.worker = some w) :
      QStep s { jobs := update_job s.jobs w now none (some p) none none
                worker := s.worker
                nextId := s.nextId }
  | finishOk (s : QState) (w : Nat) (now : Nat) (path : String)
      (hw : s.worker = some w) :
      QStep s { jobs := update_job s.jobs w now
                  (some DownloadStatus.completed) (some 100) none (some path)
                worker := none
                nextId := s.nextId }
  | finishErr (s : QState) (w : Nat) (now : Nat) (e : String)
      (hw : s.worker = some w) :
      QStep s { jobs := update_job s.jobs w now
                  (some DownloadStatus.failed) none (some e) none
                worker := none
                nextId := s.nextId }
  | cancel (s : QState) (job_id now : Nat) :
      QStep s { jobs := (cancel_job s.jobs job_id now).2
                worker := s.worker
                nextId := s.nextId }

/-- States reachable from the empty store through `QStep`. -/
inductive QReachable : QState → Prop where
  | init : QReachable initQ
  | step {s t : QState} : QReachable s → QStep s t → QReachable t

/-- `QStep` extended with arbitrary `update_job` calls (the method is
public on the manager and is also invoked by callers outside the worker). -/
inductive QStepFull : QState → QState → Prop where
  | base {s t : QState} : QStep s t → QStepFull s t
  | upd (s : QState) (job_id now : Nat) (st : Option DownloadStatus)
      (p : Option Nat) (e op : Option String) :
      QStepFull s { jobs := update_job s.jobs job_id now st p e op
                    worker := s.worker
                    nextId := s.nextId }

/-- States reachable from the empty store when arbitrary `update_job`
calls are allowed as well. -/
inductive QReachableFull : QState → Prop where
  | init : QReachableFull initQ
  | step {s t : QState} : QReachableFull s → QStepFull s t → QReachableFull t

/-- Jobs counted by the at-most-one-active invariant: status DOWNLOADING or
ANALYZING. -/
def activeCount (jobs : List Job) : Nat :=
  jobs.countP fun j =>
    decide (j.status = DownloadStatus.downloading ∨
      j.status = DownloadStatus.analyzing)

/-! ## Data model: `models/youtube_simple.py` and the playlist tables -/

/-- `YouTubeItemStatus` from models/youtube_simple.py. -/
inductive ItemStatus where
  | pending
  | downloading
  | completed
  | failed
deriving DecidableEq, Repr

/-- `DownloadType` for a playlist (audio vs video). -/
inductive DlType where
  | audio
  | video
deriving DecidableEq, Repr

/-- One entry of the list returned by `extract_playlist_items`: the dict
{video_id, title, artist?, position}. -/
structure RemoteItem where
  video_id : String
  title : String
  artist : Option String
  position : Nat
deriving DecidableEq, Repr

/-- A row of `youtube_playlist_items` (models/db.py `YouTubePlaylistItem`),
restricted to the fields the simple sync service reads or writes, for one
fixed playlist. -/
structure PlaylistItem where
  id : Nat
  youtube_video_id : String
  title : String
  artist : Option String
  position : Nat
  download_status : ItemStatus
  download_id : Option Nat
  added_to_playlist_at : Nat
  created_at : Nat
  updated_at : Nat
deriving DecidableEq, Repr

/-! ## `services/youtube_sync_simple.py`: YouTubeSyncSimple -/

/-- The persistent state `_sync_single_playlist` touches, for one playlist:
its `youtube_playlist_items` rows, the `downloads` table it appends to via
`download_queue.add_job`, the playlist's last_synced_at column, and the two
fresh-id supplies. -/
structure SyncState where
  items : List PlaylistItem
  jobs : List Job
  last_synced_at : Option Nat
  download_type : DlType
  playlist_title : String
  nextJobId : Nat
  nextItemId : Nat
deriving Repr

/-- The watch URL built for a video id (youtube_sync_simple.py line 132). -/
def videoUrl (video_id : String) : String :=
  "https://www.youtube.com/watch?v=" ++ video_id

/-- Media type and metadata chosen from the playlist's download_type
(youtube_sync_simple.py lines 134-146): AUDIO → MUSIC with
MusicMetadata(artist or "Unknown Artist", album = playlist title, track =
item title); otherwise MOVIE with MovieMetadata(item title). -/
def syncMeta (dt : DlType) (playlist_title : String) (r : RemoteItem) :
    MediaType × Metadata :=
  match dt with
  | DlType.audio =>
      (MediaType.music,
       Metadata.music (r.artist.getD "Unknown Artist") (some playlist_title)
         r.title)
  | DlType.video => (MediaType.movie, Metadata.movie r.title)

/-- The `new_items` diff (youtube_sync_simple.py lines 96-102): remote
items whose video_id is not among the existing rows' youtube_video_id. -/
def newItemsOf (items : List PlaylistItem) (youtube_items : List RemoteItem) :
    List RemoteItem :=
  youtube_items.filter fun r =>
    ¬ (items.map fun it => it.youtube_video_id).contains r.video_id

/-- The per-item loop (youtube_sync_simple.py lines 113-157).  For each new
item in order: build the PlaylistItem row (PENDING, timestamps = now) and
add it to the session, then call `download_queue.add_job` (which commits
the Job in its own session immediately), then set the row's download_id.
If `add_job` raises for this item (`jobFail` true), the exception escapes
the loop: the result carries only the Jobs already committed, the
session-buffered rows are lost to the rollback.  On success the result
carries the buffered rows and the committed Jobs.  `nJ`/`nI` are the fresh
job-uuid and row-uuid supplies. -/
def syncLoop (dt : DlType) (playlist_title : String) (now : Nat)
    (jobFail : String → Bool) :
    List RemoteItem → Nat → Nat →
      Except (List Job × Nat × Nat) (List PlaylistItem × List Job × Nat × Nat)
  | [], nJ, nI => Except.ok ([], [], nJ, nI)
  | r :: rest, nJ, nI =>
      if jobFail r.video_id then Except.error ([], nJ, nI + 1)
      else
        let mm := syncMeta dt playlist_title r
        let job := newJob nJ (videoUrl r.video_id) mm.1 mm.2 now
        let row : PlaylistItem :=
          { id := nI
            youtube_video_id := r.video_id
            title := r.title
            artist := r.artist
            position := r.position
            download_status := ItemStatus.pending
            download_id := some nJ
            added_to_playlist_at := now
            created_at := now
            updated_at := now }
        match syncLoop dt playlist_title now jobFail rest (nJ + 1) (nI + 1) with
        | Except.ok (rows, jobs, nJ2, nI2) =>
            Except.ok (row :: rows, job :: jobs, nJ2, nI2)
        | Except.error (jobs, nJ2, nI2) =>
            Except.error (job :: jobs, nJ2, nI2)

/-- `_sync_single_playlist` (youtube_sync_simple.py lines 67-170) for an
existing playlist, on an extractor oracle.  Extractor failure aborts before
any session write: the state is unchanged and the exception propagates
(result flag false).  With no new items, only last_synced_at is committed.
Otherwise the loop runs; on success the new rows, the jobs and the
last_synced_at / updated_at stamps are committed together, while on a
per-item failure the session rollback discards the buffered rows and the
last_synced_at update but the Jobs already committed by `add_job` remain,
and the exception is re-raised (flag false). -/
def sync_single_playlist (s : SyncState) (now : Nat)
    (fetch : Except String (List RemoteItem)) (jobFail : String → Bool) :
    Bool × SyncState :=
  match fetch with
  | Except.error _ => (false, s)
  | Except.ok youtube_items =>
      let new_items := newItemsOf s.items youtube_items
      if new_items.isEmpty then
        (true, { s with last_synced_at := some now })
      else
        match syncLoop s.download_type s.playlist_title now jobFail new_items
            s.nextJobId s.nextItemId with
        | Except.ok (rows, jobs, nJ, nI) =>
            (true,
             { s with
                items := s.items ++ rows
                jobs := s.jobs ++ jobs
                last_synced_at := some now
                nextJobId := nJ
                nextItemId := nI })
        | Except.error (jobs, nJ, nI) =>
            (false,
             { s with jobs := s.jobs ++ jobs, nextJobId := nJ, nextItemId := nI })

/-! ## Properties and concrete instances used by the verification -/

/-- The spec's field/status equivalences for one job row: outputPath set
iff Completed, error set iff Failed. -/
def specFieldIff (j : Job) : Prop :=
  (j.output_path ≠ none ↔ j.status = DownloadStatus.completed) ∧
  (j.error ≠ none ↔ j.status = DownloadStatus.failed)

/-- The field/status relation the queue actually maintains (without
arbitrary `update_job` calls): outputPath set iff Completed; Failed implies
error set; error set implies Failed or Cancelled (a Failed job that is
cancelled keeps its error text). -/
def fieldInvariant (j : Job) : Prop :=
  (j.output_path ≠ none ↔ j.status = DownloadStatus.completed) ∧
  (j.status = DownloadStatus.failed → j.error ≠ none) ∧
  (j.error ≠ none →
    j.status = DownloadStatus.failed ∨ j.status = DownloadStatus.cancelled)

/-- Inductive invariant of the queue system under `QStep`. -/
structure Inv (s : QState) : Prop where
  nodup : (s.jobs.map Job.id).Nodup
  lt_next : ∀ j ∈ s.jobs, j.id < s.nextId
  active_worker : ∀ j ∈ s.jobs,
    (j.status = DownloadStatus.downloading ∨
      j.status = DownloadStatus.analyzing) → s.worker = some j.id
  out_iff : ∀ j ∈ s.jobs,
    (j.output_path ≠ none ↔ j.status = DownloadStatus.completed)
  err_of_failed : ∀ j ∈ s.jobs,
    j.status = DownloadStatus.failed → j.error ≠ none
  failed_of_err : ∀ j ∈ s.jobs, j.error ≠ none →
    j.status = DownloadStatus.failed ∨ j.status = DownloadStatus.cancelled
  pending_clean : ∀ j ∈ s.jobs, j.status = DownloadStatus.pending →
    j.error = none ∧ j.output_path = none
  worker_inflight : ∀ w, s.worker = some w → ∃ j ∈ s.jobs, j.id = w ∧
    (j.status = DownloadStatus.downloading ∨
      j.status = DownloadStatus.cancelled) ∧
    j.error = none ∧ j.output_path = none

/-- A completed job row (output path set), as left behind by a successful
worker run. -/
def doneJob : Job :=
  { id := 0
    url := "u"
    media_type := MediaType.movie
    metadata := Metadata.movie "t"
    status := DownloadStatus.completed
    progress := 100
    error := none
    output_path := some "/out.mp4"
    created_at := 0
    started_at := some 1
    completed_at := some 2 }

/-- A failed job row (error text recorded), as left behind by a worker run
whose downloader raised. -/
def failedJob : Job :=
  { id := 0
    url := "u"
    media_type := MediaType.movie
    metadata := Metadata.movie "t"
    status := DownloadStatus.failed
    progress := 0
    error := some "boom"
    output_path := none
    created_at := 0
    started_at := some 1
    completed_at := some 2 }

/-- The state reached from the empty store by one `add_job` followed by
one bare `update_job` call that sets only the error field. -/
def badC8 : QState :=
  { jobs := update_job (add_job [] 0 "u" MediaType.movie (Metadata.movie "t") 0)
      0 1 none none (some "x") none
    worker := none
    nextId := 1 }

/-- The single row of `badC8`: still Pending, but its error column was set
by the bare `update_job` call. -/
def badJobC8 : Job :=
  { id := 0
    url := "u"
    media_type := MediaType.movie
    metadata := Metadata.movie "t"
    status := DownloadStatus.pending
    progress := 0
    error := some "x"
    output_path := none
    created_at := 0
    started_at := none
    completed_at := none }

/-- A local playlist item for video "v" at position 0. -/
def itemV : PlaylistItem :=
  { id := 0
    youtube_video_id := "v"
    title := "T"
    artist := none
    position := 0
    download_status := ItemStatus.pending
    download_id := none
    added_to_playlist_at := 0
    created_at := 0
    updated_at := 0 }

/-- A sync state whose only local item is `itemV`. -/
def stateV : SyncState :=
  { items := [itemV]
    jobs := []
    last_synced_at := none
    download_type := DlType.audio
    playlist_title := "P"
    nextJobId := 0
    nextItemId := 1 }

/-- The remote view of video "v", moved to position 5. -/
def remoteV5 : RemoteItem :=
  { video_id := "v", title := "T", artist := none, position := 5 }

/-- Remote item "a" (first, new). -/
def remoteA : RemoteItem :=
  { video_id := "a", title := "A", artist := none, position := 0 }

/-- Remote item "b" (second, new). -/
def remoteB : RemoteItem :=
  { video_id := "b", title := "B", artist := none, position := 1 }

/-- An empty sync state (no local items, no jobs). -/
def emptySync : SyncState :=
  { items := []
    jobs := []
    last_synced_at := none
    download_type := DlType.video
    playlist_title := "P"
    nextJobId := 0
    nextItemId := 0 }

/-! ## Basic lemmas about the queue primitives -/

theorem applyStatus_id (now : Nat) (st : DownloadStatus) (j : Job) :
    (applyStatus now st j).id = j.id := by
  unfold applyStatus
  split
  · rfl
  · split <;> rfl

theorem applyStatus_status (now : Nat) (st : DownloadStatus) (j : Job) :
    (applyStatus now st j).status = st := by
  unfold applyStatus
  split
  · rfl
  · split <;> rfl

theorem applyStatus_error (now : Nat) (st : DownloadStatus) (j : Job) :
    (applyStatus now st j).error = j.error := by
  unfold applyStatus
  split
  · rfl
  · split <;> rfl

theorem applyStatus_output (now : Nat) (st : DownloadStatus) (j : Job) :
    (applyStatus now st j).output_path = j.output_path := by
  unfold applyStatus
  split
  · rfl
  · split <;> rfl

theorem applyStatus_progress (now : Nat) (st : DownloadStatus) (j : Job) :
    (applyStatus now st j).progress = j.progress := by
  unfold applyStatus
  split
  · rfl
  · split <;> rfl

theorem updateFields_id (now : Nat) (st : Option DownloadStatus)
    (p : Option Nat) (e op : Option String) (j : Job) :
    (updateFields now st p e op j).id = j.id := by
  cases st <;> cases p <;> cases e <;> cases op <;>
    simp [updateFields, applyStatus_id]

theorem updateFields_status (now : Nat) (st : DownloadStatus)
    (p : Option Nat) (e op : Option String) (j : Job) :
    (updateFields now (some st) p e op j).status = st := by
  cases p <;> cases e <;> cases op <;>
    simp [updateFields, applyStatus_status]

theorem updF_tick (now p : Nat) (j : Job) :
    updateFields now none (some p) none none j = { j with progress := p } :=
  rfl

theorem updF_downloading (now : Nat) (j : Job) :
    updateFields now (some DownloadStatus.downloading) none none none j =
      { j with status := DownloadStatus.downloading,
               started_at := some now } :=
  rfl

theorem updF_completed (now : Nat) (path : String) (j : Job) :
    updateFields now (some DownloadStatus.completed) (some 100) none
        (some path) j =
      { j with status := DownloadStatus.completed, completed_at := some now,
               progress := 100, output_path := some path } :=
  rfl

theorem updF_failed (now : Nat) (e : String) (j : Job) :
    updateFields now (some DownloadStatus.failed) none (some e) none j =
      { j with status := DownloadStatus.failed, completed_at := some now,
               error := some e } :=
  rfl

theorem updF_cancelled (now : Nat) (j : Job) :
    updateFields now (some DownloadStatus.cancelled) none none none j =
      { j with status := DownloadStatus.cancelled } :=
  rfl

theorem get_job_eq_some {jobs : List Job} {job_id : Nat} {j : Job}
    (h : get_job jobs job_id = some j) : j ∈ jobs ∧ j.id = job_id := by
  refine ⟨List.mem_of_find?_eq_some h, ?_⟩
  have := List.find?_some h
  simpa using this

theorem get_job_update_job (jobs : List Job) (job_id now : Nat)
    (st : Option DownloadStatus) (p : Option Nat) (e op : Option String) :
    get_job (update_job jobs job_id now st p e op) job_id =
      (get_job jobs job_id).map (updateFields now st p e op) := by
  induction jobs with
  | nil => rfl
  | cons j rest ih =>
      by_cases h : j.id = job_id
      · simp [get_job, update_job, List.find?, h, updateFields_id]
      · simp only [get_job, update_job, List.map_cons, List.find?] at ih ⊢
        simp only [if_neg h, decide_eq_false h]
        exact ih

theorem mem_update_job {jobs : List Job} {job_id now : Nat}
    {st : Option DownloadStatus} {p : Option Nat} {e op : Option String}
    {j' : Job} (h : j' ∈ update_job jobs job_id now st p e op) :
    ∃ j, j ∈ jobs ∧
      ((j.id = job_id ∧ j' = updateFields now st p e op j) ∨
        (j.id ≠ job_id ∧ j' = j)) := by
  simp only [update_job, List.mem_map] at h
  obtain ⟨j, hj, hEq⟩ := h
  by_cases hid : j.id = job_id
  · exact ⟨j, hj, Or.inl ⟨hid, by rw [← hEq, if_pos hid]⟩⟩
  · exact ⟨j, hj, Or.inr ⟨hid, by rw [← hEq, if_neg hid]⟩⟩

theorem update_job_mem_of_mem {jobs : List Job} {j : Job}
    (hj : j ∈ jobs) (job_id now : Nat) (st : Option DownloadStatus)
    (p : Option Nat) (e op : Option String) :
    (if j.id = job_id then updateFields now st p e op j else j) ∈
      update_job jobs job_id now st p e op :=
  List.mem_map_of_mem _ hj

theorem update_job_map_id (jobs : List Job) (job_id now : Nat)
    (st : Option DownloadStatus) (p : Option Nat) (e op : Option String) :
    (update_job jobs job_id now st p e op).map Job.id = jobs.map Job.id := by
  unfold update_job
  rw [List.map_map]
  refine List.map_congr_left ?_
  intro j _
  by_cases h : j.id = job_id
  · simp [h, updateFields_id]
  · simp [h]

theorem foldl_pick_mem (l : List Job) (acc : Option Job) (j : Job)
    (h : l.foldl
      (fun acc j =>
        match acc with
        | none => some j
        | some k => if j.created_at < k.created_at then some j else acc)
      acc = some j) :
    acc = some j ∨ j ∈ l := by
  induction l generalizing acc with
  | nil => exact Or.inl h
  | cons a t ih =>
      rcases ih _ h with h1 | h1
      · rcases acc with _ | k
        · have h2 : a = j := Option.some.inj h1
          subst h2
          exact Or.inr (List.mem_cons_self _ _)
        · have h2 : (if a.created_at < k.created_at then some a else some k) =
              some j := h1
          by_cases hlt : a.created_at < k.created_at
          · rw [if_pos hlt] at h2
            have h3 : a = j := Option.some.inj h2
            subst h3
            exact Or.inr (List.mem_cons_self _ _)
          · rw [if_neg hlt] at h2
            exact Or.inl h2
      · exact Or.inr (List.mem_cons_of_mem _ h1)

theorem get_next_pending_spec {jobs : List Job} {j : Job}
    (h : get_next_pending jobs = some j) :
    j ∈ jobs ∧ j.status = DownloadStatus.pending := by
  unfold get_next_pending at h
  rcases foldl_pick_mem _ _ _ h with h1 | h1
  · exact absurd h1 (by simp)
  · have := List.mem_filter.mp h1
    exact ⟨this.1, by simpa using this.2⟩

theorem countP_le_one_of_same_id (w : Nat) {p : Job → Bool}
    (l : List Job) (hnd : (l.map Job.id).Nodup)
    (hp : ∀ j ∈ l, p j = true → j.id = w) :
    l.countP p ≤ 1 := by
  induction l with
  | nil => simp
  | cons a t ih =>
      rw [List.map_cons, List.nodup_cons] at hnd
      by_cases ha : p a = true
      · have haw : a.id = w := hp a (List.mem_cons_self a t) ha
        have ht : t.countP p = 0 := by
          rw [List.countP_eq_zero]
          intro j hj hpj
          have hjw : j.id = w := hp j (List.mem_cons_of_mem _ hj) hpj
          exact hnd.1 (by
            rw [← haw] at hjw
            exact hjw ▸ List.mem_map_of_mem Job.id hj)
        rw [List.countP_cons_of_pos _ _ ha, ht]
      · rw [List.countP_cons_of_neg _ _ (by simpa using ha)]
        exact ih hnd.2 fun j hj hpj => hp j (List.mem_cons_of_mem _ hj) hpj

theorem id_inj {l : List Job} (hnd : (l.map Job.id).Nodup) {j1 j2 : Job}
    (h1 : j1 ∈ l) (h2 : j2 ∈ l) (h : j1.id = j2.id) : j1 = j2 :=
  List.inj_on_of_nodup_map hnd h1 h2 h

theorem update_job_forall_id {jobs : List Job} {jid now : Nat}
    {st : Option DownloadStatus} {p : Option Nat} {e op : Option String}
    (P : Nat → Prop) (h : ∀ j ∈ jobs, P j.id) :
    ∀ j' ∈ update_job jobs jid now st p e op, P j'.id := by
  intro j' hj'
  obtain ⟨j, hj, hcase⟩ := mem_update_job hj'
  rcases hcase with ⟨hid, heq⟩ | ⟨hid, heq⟩
  · rw [heq, updateFields_id]
    exact h j hj
  · rw [heq]
    exact h j hj

theorem inv_init : Inv initQ := by
  refine ⟨?_, ?_, ?_, ?_, ?_, ?_, ?_, ?_⟩ <;> simp [initQ]

theorem inv_step {s t : QState} (hI : Inv s) (hstep : QStep s t) : Inv t := by
  cases hstep with
  | add url mt md now =>
      refine ⟨?_, ?_, ?_, ?_, ?_, ?_, ?_, ?_⟩
      · dsimp only
        rw [add_job, List.map_append]
        refine hI.nodup.append (List.nodup_singleton _) ?_
        intro a ha hb
        simp only [List.map_cons, List.map_nil, List.mem_singleton] at hb
        obtain ⟨j, hj, rfl⟩ := List.mem_map.mp ha
        have hlt := hI.lt_next j hj
        have : (newJob s.nextId url mt md now).id = s.nextId := rfl
        rw [this] at hb
        omega
      · intro j hj
        dsimp only at hj ⊢
        rw [add_job] at hj
        rcases List.mem_append.mp hj with h | h
        · exact Nat.lt_succ_of_lt (hI.lt_next j h)
        · rw [List.mem_singleton] at h
          subst h
          exact Nat.lt_succ_self _
      · intro j hj hact
        dsimp only at hj ⊢
        rw [add_job] at hj
        rcases List.mem_append.mp hj with h | h
        · exact hI.active_worker j h hact
        · rw [List.mem_singleton] at h
          subst h
          rcases hact with h' | h' <;> simp [newJob] at h'
      · intro j hj
        dsimp only at hj
        rw [add_job] at hj
        rcases List.mem_append.mp hj with h | h
        · exact hI.out_iff j h
        · rw [List.mem_singleton] at h
          subst h
          simp [newJob]
      · intro j hj hf
        dsimp only at hj
        rw [add_job] at hj
        rcases List.mem_append.mp hj with h | h
        · exact hI.err_of_failed j h hf
        · rw [List.mem_singleton] at h
          subst h
          simp [newJob] at hf
      · intro j hj he
        dsimp only at hj
        rw [add_job] at hj
        rcases List.mem_append.mp hj with h | h
        · exact hI.failed_of_err j h he
        · rw [List.mem_singleton] at h
          subst h
          simp [newJob] at he
      · intro j hj _
        dsimp only at hj
        rw [add_job] at hj
        rcases List.mem_append.mp hj with h | h
        · exact hI.pending_clean j h (by assumption)
        · rw [List.mem_singleton] at h
          subst h
          simp [newJob]
      · intro w hw
        dsimp only at hw ⊢
        obtain ⟨jw, hjw, hprops⟩ := hI.worker_inflight w hw
        exact ⟨jw, by rw [add_job]; exact List.mem_append_left _ hjw, hprops⟩
  | pick jp now hw hjp =>
      obtain ⟨hjp_mem, hjp_pending⟩ := get_next_pending_spec hjp
      have hpc := hI.pending_clean jp hjp_mem hjp_pending
      refine ⟨?_, ?_, ?_, ?_, ?_, ?_, ?_, ?_⟩
      · dsimp only
        rw [update_job_map_id]
        exact hI.nodup
      · dsimp only
        exact update_job_forall_id (fun n => n < s.nextId) hI.lt_next
      · intro j' hj' hact
        dsimp only at hj' ⊢
        obtain ⟨j, hj, hcase⟩ := mem_update_job hj'
        rcases hcase with ⟨hid, heq⟩ | ⟨hid, heq⟩
        · rw [heq, updateFields_id, hid]
        · subst heq
          have := hI.active_worker j' hj hact
          rw [hw] at this
          exact Option.noConfusion this
      · intro j' hj'
        dsimp only at hj'
        obtain ⟨j, hj, hcase⟩ := mem_update_job hj'
        rcases hcase with ⟨hid, heq⟩ | ⟨hid, heq⟩
        · have hjjp : j = jp := id_inj hI.nodup hj hjp_mem hid
          subst hjjp heq
          rw [updF_downloading]
          simp [hpc.2]
        · subst heq
          exact hI.out_iff j' hj
      · intro j' hj' hf
        dsimp only at hj'
        obtain ⟨j, hj, hcase⟩ := mem_update_job hj'
        rcases hcase with ⟨hid, heq⟩ | ⟨hid, heq⟩
        · subst heq
          rw [updF_downloading] at hf
          simp at hf
        · subst heq
          exact hI.err_of_failed j' hj hf
      · intro j' hj' he
        dsimp only at hj'
        obtain ⟨j, hj, hcase⟩ := mem_update_job hj'
        rcases hcase with ⟨hid, heq⟩ | ⟨hid, heq⟩
        · have hjjp : j = jp := id_inj hI.nodup hj hjp_mem hid
          subst hjjp heq
          rw [updF_downloading] at he
          simp [hpc.1] at he
        · subst heq
          exact hI.failed_of_err j' hj he
      · intro j' hj' hp
        dsimp only at hj'
        obtain ⟨j, hj, hcase⟩ := mem_update_job hj'
        rcases hcase with ⟨hid, heq⟩ | ⟨hid, heq⟩
        · subst heq
          rw [updF_downloading] at hp
          simp at hp
        · subst heq
          exact hI.pending_clean j' hj hp
      · intro w hw'
        dsimp only at hw' ⊢
        have hweq : jp.id = w := Option.some.inj hw'
        refine ⟨updateFields now (some DownloadStatus.downloading) none none
          none jp, ?_, ?_, ?_, ?_, ?_⟩
        · have hmem := update_job_mem_of_mem hjp_mem jp.id now
            (some DownloadStatus.downloading) none none none
          rw [if_pos rfl] at hmem
          exact hmem
        · rw [updateFields_id]
          exact hweq
        · rw [updF_downloading]
          exact Or.inl rfl
        · rw [updF_downloading]
          exact hpc.1
        · rw [updF_downloading]
          exact hpc.2
  | tick w now p hw =>
      refine ⟨?_, ?_, ?_, ?_, ?_, ?_, ?_, ?_⟩
      · dsimp only
        rw [update_job_map_id]
        exact hI.nodup
      · dsimp only
        exact update_job_forall_id (fun n => n < s.nextId) hI.lt_next
      · intro j' hj' hact
        dsimp only at hj' ⊢
        obtain ⟨j, hj, hcase⟩ := mem_update_job hj'
        rcases hcase with ⟨hid, heq⟩ | ⟨hid, heq⟩
        · subst heq
          rw [updF_tick] at hact
          dsimp only at hact ⊢
          rw [updateFields_id]
          exact hI.active_worker j hj hact
        · subst heq
          exact hI.active_worker j' hj hact
      · intro j' hj'
        dsimp only at hj'
        obtain ⟨j, hj, hcase⟩ := mem_update_job hj'
        rcases hcase with ⟨hid, heq⟩ | ⟨hid, heq⟩
        · subst heq
          rw [updF_tick]
          exact hI.out_iff j hj
        · subst heq
          exact hI.out_iff j' hj
      · intro j' hj' hf
        dsimp only at hj'
        obtain ⟨j, hj, hcase⟩ := mem_update_job hj'
        rcases hcase with ⟨hid, heq⟩ | ⟨hid, heq⟩
        · subst heq
          rw [updF_tick] at hf ⊢
          exact hI.err_of_failed j hj hf
        · subst heq
          exact hI.err_of_failed j' hj hf
      · intro j' hj' he
        dsimp only at hj'
        obtain ⟨j, hj, hcase⟩ := mem_update_job hj'
        rcases hcase with ⟨hid, heq⟩ | ⟨hid, heq⟩
        · subst heq
          rw [updF_tick] at he ⊢
          exact hI.failed_of_err j hj he
        · subst heq
          exact hI.failed_of_err j' hj he
      · intro j' hj' hp
        dsimp only at hj'
        obtain ⟨j, hj, hcase⟩ := mem_update_job hj'
        rcases hcase with ⟨hid, heq⟩ | ⟨hid, heq⟩
        · subst heq
          rw [updF_tick] at hp ⊢
          exact hI.pending_clean j hj hp
        · subst heq
          exact hI.pending_clean j' hj hp
      · intro w' hw'
        dsimp only at hw' ⊢
        obtain ⟨jw, hjw, hjw_id, hjw_st, hjw_err, hjw_out⟩ :=
          hI.worker_inflight w' hw'
        by_cases hcase : jw.id = w
        · refine ⟨updateFields now none (some p) none none jw, ?_, ?_, ?_, ?_, ?_⟩
          · have hmem := update_job_mem_of_mem hjw w now none (some p) none none
            rw [if_pos hcase] at hmem
            exact hmem
          · rw [updateFields_id]
            exact hjw_id
          · rw [updF_tick]
            exact hjw_st
          · rw [updF_tick]
            exact hjw_err
          · rw [updF_tick]
            exact hjw_out
        · refine ⟨jw, ?_, hjw_id, hjw_st, hjw_err, hjw_out⟩
          have hmem := update_job_mem_of_mem hjw w now none (some p) none none
          rw [if_neg hcase] at hmem
          exact hmem
  | finishOk w now path hw =>
      obtain ⟨jw, hjw_mem, hjw_id, hjw_st, hjw_err, hjw_out⟩ :=
        hI.worker_inflight w hw
      refine ⟨?_, ?_, ?_, ?_, ?_, ?_, ?_, ?_⟩
      · dsimp only
        rw [update_job_map_id]
        exact hI.nodup
      · dsimp only
        exact update_job_forall_id (fun n => n < s.nextId) hI.lt_next
      · intro j' hj' hact
        dsimp only at hj' ⊢
        obtain ⟨j, hj, hcase⟩ := mem_update_job hj'
        rcases hcase with ⟨hid, heq⟩ | ⟨hid, heq⟩
        · subst heq
          rw [updF_completed] at hact
          rcases hact with h' | h' <;> simp at h'
        · subst heq
          have := hI.active_worker j' hj hact
          rw [hw] at this
          exact absurd (Option.some.inj this).symm hid
      · intro j' hj'
        dsimp only at hj'
        obtain ⟨j, hj, hcase⟩ := mem_update_job hj'
        rcases hcase with ⟨hid, heq⟩ | ⟨hid, heq⟩
        · subst heq
          rw [updF_completed]
          simp
        · subst heq
          exact hI.out_iff j' hj
      · intro j' hj' hf
        dsimp only at hj'
        obtain ⟨j, hj, hcase⟩ := mem_update_job hj'
        rcases hcase with ⟨hid, heq⟩ | ⟨hid, heq⟩
        · subst heq
          rw [updF_completed] at hf
          simp at hf
        · subst heq
          exact hI.err_of_failed j' hj hf
      · intro j' hj' he
        dsimp only at hj'
        obtain ⟨j, hj, hcase⟩ := mem_update_job hj'
        rcases hcase with ⟨hid, heq⟩ | ⟨hid, heq⟩
        · have hjjw : j = jw := id_inj hI.nodup hj hjw_mem (by rw [hid, hjw_id])
          subst hjjw heq
          rw [updF_completed] at he
          simp [hjw_err] at he
        · subst heq
          exact hI.failed_of_err j' hj he
      · intro j' hj' hp
        dsimp only at hj'
        obtain ⟨j, hj, hcase⟩ := mem_update_job hj'
        rcases hcase with ⟨hid, heq⟩ | ⟨hid, heq⟩
        · subst heq
          rw [updF_completed] at hp
          simp at hp
        · subst heq
          exact hI.pending_clean j' hj hp
      · intro w' hw'
        exact Option.noConfusion hw'
  | finishErr w now e hw =>
      obtain ⟨jw, hjw_mem, hjw_id, hjw_st, hjw_err, hjw_out⟩ :=
        hI.worker_inflight w hw
      refine ⟨?_, ?_, ?_, ?_, ?_, ?_, ?_, ?_⟩
      · dsimp only
        rw [update_job_map_id]
        exact hI.nodup
      · dsimp only
        exact update_job_forall_id (fun n => n < s.nextId) hI.lt_next
      · intro j' hj' hact
        dsimp only at hj' ⊢
        obtain ⟨j, hj, hcase⟩ := mem_update_job hj'
        rcases hcase with ⟨hid, heq⟩ | ⟨hid, heq⟩
        · subst heq
          rw [updF_failed] at hact
          rcases hact with h' | h' <;> simp at h'
        · subst heq
          have := hI.active_worker j' hj hact
          rw [hw] at this
          exact absurd (Option.some.inj this).symm hid
      · intro j' hj'
        dsimp only at hj'
        obtain ⟨j, hj, hcase⟩ := mem_update_job hj'
        rcases hcase with ⟨hid, heq⟩ | ⟨hid, heq⟩
        · have hjjw : j = jw := id_inj hI.nodup hj hjw_mem (by rw [hid, hjw_id])
          subst hjjw heq
          rw [updF_failed]
          simp [hjw_out]
        · subst heq
          exact hI.out_iff j' hj
      · intro j' hj' _
        dsimp only at hj'
        obtain ⟨j, hj, hcase⟩ := mem_update_job hj'
        rcases hcase with ⟨hid, heq⟩ | ⟨hid, heq⟩
        · subst heq
          rw [updF_failed]
          simp
        · subst heq
          exact hI.err_of_failed j' hj (by assumption)
      · intro j' hj' _
        dsimp only at hj'
        obtain ⟨j, hj, hcase⟩ := mem_update_job hj'
        rcases hcase with ⟨hid, heq⟩ | ⟨hid, heq⟩
        · subst heq
          rw [updF_failed]
          exact Or.inl rfl
        · subst heq
          exact hI.failed_of_err j' hj (by assumption)
      · intro j' hj' hp
        dsimp only at hj'
        obtain ⟨j, hj, hcase⟩ := mem_update_job hj'
        rcases hcase with ⟨hid, heq⟩ | ⟨hid, heq⟩
        · subst heq
          rw [updF_failed] at hp
          simp at hp
        · subst heq
          exact hI.pending_clean j' hj hp
      · intro w' hw'
        exact Option.noConfusion hw'
  | cancel jid now =>
      rcases hget : get_job s.jobs jid with _ | jc
      · simp only [cancel_job, hget]
        exact ⟨hI.nodup, hI.lt_next, hI.active_worker, hI.out_iff,
          hI.err_of_failed, hI.failed_of_err, hI.pending_clean,
          hI.worker_inflight⟩
      · obtain ⟨hjc_mem, hjc_id⟩ := get_job_eq_some hget
        by_cases hterm : jc.status = DownloadStatus.completed ∨
            jc.status = DownloadStatus.cancelled
        · simp only [cancel_job, hget, if_pos hterm]
          exact ⟨hI.nodup, hI.lt_next, hI.active_worker, hI.out_iff,
            hI.err_of_failed, hI.failed_of_err, hI.pending_clean,
            hI.worker_inflight⟩
        · simp only [cancel_job, hget, if_neg hterm]
          have hnc : jc.status ≠ DownloadStatus.completed :=
            fun h => hterm (Or.inl h)
          refine ⟨?_, ?_, ?_, ?_, ?_, ?_, ?_, ?_⟩
          · rw [update_job_map_id]
            exact hI.nodup
          · dsimp only
            exact update_job_forall_id (fun n => n < s.nextId) hI.lt_next
          · intro j' hj' hact
            obtain ⟨j, hj, hcase⟩ := mem_update_job hj'
            rcases hcase with ⟨hid, heq⟩ | ⟨hid, heq⟩
            · subst heq
              rw [updF_cancelled] at hact
              rcases hact with h' | h' <;> simp at h'
            · subst heq
              exact hI.active_worker j' hj hact
          · intro j' hj'
            obtain ⟨j, hj, hcase⟩ := mem_update_job hj'
            rcases hcase with ⟨hid, heq⟩ | ⟨hid, heq⟩
            · have hjjc : j = jc := id_inj hI.nodup hj hjc_mem
                (by rw [hid, hjc_id])
              subst hjjc heq
              rw [updF_cancelled]
              have : j.output_path = none := by
                by_contra hne
                exact hnc ((hI.out_iff j hj).mp hne)
              simp [this]
            · subst heq
              exact hI.out_iff j' hj
          · intro j' hj' hf
            obtain ⟨j, hj, hcase⟩ := mem_update_job hj'
            rcases hcase with ⟨hid, heq⟩ | ⟨hid, heq⟩
            · subst heq
              rw [updF_cancelled] at hf
              simp at hf
            · subst heq
              exact hI.err_of_failed j' hj hf
          · intro j' hj' _
            obtain ⟨j, hj, hcase⟩ := mem_update_job hj'
            rcases hcase with ⟨hid, heq⟩ | ⟨hid, heq⟩
            · subst heq
              rw [updF_cancelled]
              exact Or.inr rfl
            · subst heq
              exact hI.failed_of_err j' hj (by assumption)
          · intro j' hj' hp
            obtain ⟨j, hj, hcase⟩ := mem_update_job hj'
            rcases hcase with ⟨hid, heq⟩ | ⟨hid, heq⟩
            · subst heq
              rw [updF_cancelled] at hp
              simp at hp
            · subst heq
              exact hI.pending_clean j' hj hp
          · intro w' hw'
            obtain ⟨jw, hjw, hjw_id, hjw_st, hjw_err, hjw_out⟩ :=
              hI.worker_inflight w' hw'
            by_cases hcase : jw.id = jid
            · refine ⟨updateFields now (some DownloadStatus.cancelled) none
                none none jw, ?_, ?_, ?_, ?_, ?_⟩
              · have hmem := update_job_mem_of_mem hjw jid now
                  (some DownloadStatus.cancelled) none none none
                rw [if_pos hcase] at hmem
                exact hmem
              · rw [updateFields_id]
                exact hjw_id
              · rw [updF_cancelled]
                exact Or.inr rfl
              · rw [updF_cancelled]
                exact hjw_err
              · rw [updF_cancelled]
                exact hjw_out
            · refine ⟨jw, ?_, hjw_id, hjw_st, hjw_err, hjw_out⟩
              have hmem := update_job_mem_of_mem hjw jid now
                (some DownloadStatus.cancelled) none none none
              rw [if_neg hcase] at hmem
              exact hmem

theorem inv_reachable {s : QState} (h : QReachable s) : Inv s := by
  induction h with
  | init => exact inv_init
  | step _ hstep ih => exact inv_step ih hstep

/-- C2: in every state reachable by interleaving `add_job` calls with the
single worker loop's steps (`get_next_pending` picks, progress callbacks,
completion/failure writes) and `cancel_job` calls, at most one job has
status DOWNLOADING or ANALYZING. -/
theorem at_most_one_active (s : QState) (h : QReachable s) :
    activeCount s.jobs ≤ 1 := by
  have hI : Inv s := inv_reachable h
  unfold activeCount
  rcases hworker : s.worker with _ | w
  · have h0 : (s.jobs.countP fun j =>
        decide (j.status = DownloadStatus.downloading ∨
          j.status = DownloadStatus.analyzing)) = 0 := by
      rw [List.countP_eq_zero]
      intro j hj hp
      have hact := of_decide_eq_true hp
      have := hI.active_worker j hj hact
      rw [hworker] at this
      exact Option.noConfusion this
    rw [h0]
    exact Nat.zero_le 1
  · refine countP_le_one_of_same_id w s.jobs hI.nodup ?_
    intro j hj hp
    have hact := of_decide_eq_true hp
    have := hI.active_worker j hj hact
    rw [hworker] at this
    exact (Option.some.inj this).symm

/-- C2 witness: the invariant holds at the concrete reachable state with
one job that the worker has just picked (status DOWNLOADING). -/
theorem at_most_one_active_witness :
    activeCount
      { jobs := update_job
          (add_job [] 0 "u" MediaType.movie (Metadata.movie "t") 0) 0 1
          (some DownloadStatus.downloading) none none none
        worker := some 0
        nextId := 1 : QState }.jobs ≤ 1 :=
  at_most_one_active _
    (QReachable.step
      (QReachable.step QReachable.init
        (QStep.add initQ "u" MediaType.movie (Metadata.movie "t") 0))
      (QStep.pick _ (newJob 0 "u" MediaType.movie (Metadata.movie "t") 0)
        1 rfl rfl))

/-- C8, counterexample to the claim as stated: with arbitrary `update_job`
among the allowed operations, the state `badC8` (add one job, then call
`update_job` setting only the error field) is reachable, and its only job
is Pending with a non-null error — so "error is non-null iff status is
Failed" fails. -/
theorem field_iff_counterexample :
    QReachableFull badC8 ∧ badC8.jobs = [badJobC8] ∧
      ¬ ∀ j ∈ badC8.jobs, specFieldIff j := by
  refine ⟨?_, rfl, ?_⟩
  · refine QReachableFull.step (QReachableFull.step QReachableFull.init
      (QStepFull.base
        (QStep.add initQ "u" MediaType.movie (Metadata.movie "t") 0))) ?_
    exact QStepFull.upd _ 0 1 none none (some "x") none
  · intro hall
    have hmem : badJobC8 ∈ badC8.jobs := by
      rw [show badC8.jobs = [badJobC8] from rfl]
      exact List.mem_singleton.mpr rfl
    have h2 := (hall badJobC8 hmem).2
    have : badJobC8.status = DownloadStatus.failed := h2.mp (by decide)
    exact absurd this (by decide)

/-- C8, amended: without arbitrary `update_job` calls — i.e. in every state
reachable through `add_job`, the worker's processing steps and
`cancel_job` — outputPath is non-null iff status is Completed, Failed
implies a non-null error, and a non-null error implies status Failed or
Cancelled (a Failed job that is then cancelled keeps its error text while
its status becomes Cancelled, so the error-iff-Failed direction cannot be
strengthened to an equivalence). -/
theorem queue_field_invariant (s : QState) (h : QReachable s) :
    ∀ j ∈ s.jobs, fieldInvariant j := by
  have hI := inv_reachable h
  intro j hj
  exact ⟨hI.out_iff j hj, hI.err_of_failed j hj, hI.failed_of_err j hj⟩

/-- C8 amended, witness: the invariant holds for the concrete job of the
reachable state with one freshly added Pending job. -/
theorem queue_field_invariant_witness :
    fieldInvariant (newJob 0 "u" MediaType.movie (Metadata.movie "t") 0) :=
  queue_field_invariant
    { jobs := add_job [] 0 "u" MediaType.movie (Metadata.movie "t") 0
      worker := none
      nextId := 1 }
    (QReachable.step QReachable.init
      (QStep.add initQ "u" MediaType.movie (Metadata.movie "t") 0))
    (newJob 0 "u" MediaType.movie (Metadata.movie "t") 0)
    (List.mem_singleton.mpr rfl)

/-- C1, counterexample to the claim as stated: `update_job` applied to a
COMPLETED job with a new status simply writes that status — terminal
statuses are not immutable. -/
theorem terminal_status_overwritten :
    get_job (update_job [doneJob] 0 3 (some DownloadStatus.pending) none none
        none) 0 = some { doneJob with status := DownloadStatus.pending } ∧
      doneJob.status = DownloadStatus.completed :=
  ⟨rfl, rfl⟩

/-- C1, amended: `update_job` applies any provided status unconditionally —
whenever the job exists, its status after the call is exactly the status
passed in, regardless of the previous status (terminal or not); there is no
terminal-state guard.  (`cancel_job` likewise guards only COMPLETED and
CANCELLED, so a FAILED job can still be moved to CANCELLED.) -/
theorem update_job_sets_status (jobs : List Job) (jid now : Nat)
    (st : DownloadStatus) (p : Option Nat) (e op : Option String) (j : Job)
    (h : get_job jobs jid = some j) :
    ∃ j', get_job (update_job jobs jid now (some st) p e op) jid = some j' ∧
      j'.status = st := by
  refine ⟨updateFields now (some st) p e op j, ?_,
    updateFields_status now st p e op j⟩
  rw [get_job_update_job, h]
  rfl

/-- C1 amended, witness: updating the concrete COMPLETED job `doneJob` with
status PENDING yields a job whose status is PENDING. -/
theorem update_job_sets_status_witness :
    ∃ j', get_job (update_job [doneJob] 0 3 (some DownloadStatus.pending)
        none none none) 0 = some j' ∧
      j'.status = DownloadStatus.pending :=
  update_job_sets_status [doneJob] 0 3 DownloadStatus.pending none none none
    doneJob rfl

/-- C6, counterexample to the claim as stated: FAILED is a terminal status,
but `cancel_job` on a FAILED job returns True and moves it to CANCELLED
(the guard checks only COMPLETED and CANCELLED). -/
theorem cancel_succeeds_on_failed :
    (cancel_job [failedJob] 0 9).1 = true ∧
    (get_job (cancel_job [failedJob] 0 9).2 0).map Job.status =
      some DownloadStatus.cancelled ∧
    failedJob.status = DownloadStatus.failed :=
  ⟨rfl, rfl, rfl⟩

/-- C6, amended: for an existing job, `cancel_job` returns False and leaves
the store unchanged exactly when the status is COMPLETED or CANCELLED
(not FAILED); for any other status — Pending, Analyzing, Downloading, and
also Failed — it returns True and rewrites the job's status (only) to
CANCELLED.  Cancelling a Pending job hence returns True and sets CANCELLED,
and a second cancel of the same job returns False. -/
theorem cancel_job_spec (jobs : List Job) (jid now : Nat) (j : Job)
    (h : get_job jobs jid = some j) :
    ((j.status = DownloadStatus.completed ∨
        j.status = DownloadStatus.cancelled) →
      cancel_job jobs jid now = (false, jobs)) ∧
    (¬ (j.status = DownloadStatus.completed ∨
        j.status = DownloadStatus.cancelled) →
      (cancel_job jobs jid now).1 = true ∧
      ∃ j', get_job (cancel_job jobs jid now).2 jid = some j' ∧
        j' = { j with status := DownloadStatus.cancelled }) := by
  constructor
  · intro hterm
    simp only [cancel_job, h, if_pos hterm]
  · intro hterm
    have hpair : cancel_job jobs jid now = (true, update_job jobs jid now
        (some DownloadStatus.cancelled) none none none) := by
      simp only [cancel_job, h, if_neg hterm]
    rw [hpair]
    refine ⟨rfl, updateFields now (some DownloadStatus.cancelled) none none
      none j, ?_, updF_cancelled now j⟩
    rw [get_job_update_job, h]
    rfl

/-- C6 amended, witness: cancelling a concrete freshly added Pending job
returns True and sets its status to CANCELLED. -/
theorem cancel_job_spec_witness :
    (cancel_job [newJob 0 "u" MediaType.movie (Metadata.movie "t") 5] 0
      9).1 = true ∧
    ∃ j', get_job (cancel_job
        [newJob 0 "u" MediaType.movie (Metadata.movie "t") 5] 0 9).2 0 =
      some j' ∧
      j' = { newJob 0 "u" MediaType.movie (Metadata.movie "t") 5 with
        status := DownloadStatus.cancelled } :=
  (cancel_job_spec [newJob 0 "u" MediaType.movie (Metadata.movie "t") 5] 0 9
    (newJob 0 "u" MediaType.movie (Metadata.movie "t") 5) rfl).2 (by decide)

theorem get_job_progress_fold (jobs : List Job) (jid : Nat)
    (ticks : List (Nat × Nat)) :
    get_job (ticks.foldl
        (fun js tk => update_job js jid tk.1 none (some tk.2) none none)
        jobs) jid =
      (get_job jobs jid).map
        (fun j => ticks.foldl (fun j tk => { j with progress := tk.2 }) j) := by
  induction ticks generalizing jobs with
  | nil => simp
  | cons tk ticks ih =>
      simp only [List.foldl_cons]
      rw [ih, get_job_update_job, Option.map_map]
      rfl

theorem progress_fold_fields (ticks : List (Nat × Nat)) (j : Job) :
    (ticks.foldl (fun j tk => { j with progress := tk.2 }) j).status =
        j.status ∧
    (ticks.foldl (fun j tk => { j with progress := tk.2 }) j).error =
        j.error ∧
    (ticks.foldl (fun j tk => { j with progress := tk.2 }) j).output_path =
        j.output_path := by
  induction ticks generalizing j with
  | nil => exact ⟨rfl, rfl, rfl⟩
  | cons tk ticks ih => exact ih { j with progress := tk.2 }

/-- C7: when the downloader raises, `process_job` catches the exception and
records the job as FAILED with error = str(e); the output path, never
having been written (the job's outputPath was null), stays null; and
`process_job` returns normally (it is a total function of the store here),
so the worker loop proceeds to its next poll iteration. -/
theorem downloader_failure_recorded (jobs : List Job) (jid t1 t2 : Nat)
    (ticks : List (Nat × Nat)) (e : String) (j : Job)
    (h : get_job jobs jid = some j) (hout : j.output_path = none) :
    ∃ j', get_job (process_job jobs jid t1 ticks (Except.error e) t2) jid =
        some j' ∧
      j'.status = DownloadStatus.failed ∧ j'.error = some e ∧
      j'.output_path = none := by
  simp only [process_job]
  rw [get_job_update_job, get_job_progress_fold, get_job_update_job, h]
  refine ⟨_, rfl, ?_, ?_, ?_⟩
  · exact updateFields_status _ _ _ _ _ _
  · rfl
  · show (updateFields t2 (some DownloadStatus.failed) none (some e) none
      (List.foldl (fun j tk => { j with progress := tk.2 }) (updateFields t1
        (some DownloadStatus.downloading) none none none j)
        ticks)).output_path = none
    have h1 : (updateFields t2 (some DownloadStatus.failed) none (some e)
        none (List.foldl (fun j tk => { j with progress := tk.2 })
          (updateFields t1 (some DownloadStatus.downloading) none none none
            j) ticks)).output_path =
        (List.foldl (fun j tk => { j with progress := tk.2 })
          (updateFields t1 (some DownloadStatus.downloading) none none none
            j) ticks).output_path := rfl
    rw [h1,
      (progress_fold_fields ticks (updateFields t1
        (some DownloadStatus.downloading) none none none j)).2.2]
    rw [show (updateFields t1 (some DownloadStatus.downloading) none none
      none j).output_path = j.output_path from rfl]
    exact hout

/-- C7 witness: a concrete Pending job whose download raises "disk full"
ends FAILED with error "disk full" and a null output path. -/
theorem downloader_failure_recorded_witness :
    ∃ j', get_job (process_job
        [newJob 0 "u" MediaType.movie (Metadata.movie "t") 0] 0 1 [(2, 40)]
        (Except.error "disk full") 3) 0 = some j' ∧
      j'.status = DownloadStatus.failed ∧ j'.error = some "disk full" ∧
      j'.output_path = none :=
  downloader_failure_recorded
    [newJob 0 "u" MediaType.movie (Metadata.movie "t") 0] 0 1 3 [(2, 40)]
    "disk full" (newJob 0 "u" MediaType.movie (Metadata.movie "t") 0) rfl rfl

/-! ## Lemmas about the playlist sync loop -/

theorem mem_newItemsOf {items : List PlaylistItem} {yt : List RemoteItem}
    {r : RemoteItem} :
    r ∈ newItemsOf items yt ↔
      r ∈ yt ∧ r.video_id ∉ items.map (fun it => it.youtube_video_id) := by
  simp [newItemsOf]

theorem newItemsOf_eq_nil {items : List PlaylistItem}
    {yt : List RemoteItem}
    (h : ∀ r ∈ yt, r.video_id ∈ items.map (fun it => it.youtube_video_id)) :
    newItemsOf items yt = [] := by
  rw [newItemsOf, List.filter_eq_nil_iff]
  intro r hr
  simp [h r hr]

theorem syncLoop_ok_shape (dt : DlType) (pt : String) (now : Nat)
    (f : String → Bool) (l : List RemoteItem) :
    ∀ (nJ nI : Nat) rows jobs nJ' nI',
      syncLoop dt pt now f l nJ nI = Except.ok (rows, jobs, nJ', nI') →
      rows.map (fun row => row.youtube_video_id) =
        l.map (fun r => r.video_id) := by
  induction l with
  | nil =>
      intro nJ nI rows jobs nJ' nI' h
      simp only [syncLoop, Except.ok.injEq, Prod.mk.injEq] at h
      rw [← h.1]
      rfl
  | cons r rest ih =>
      intro nJ nI rows jobs nJ' nI' h
      simp only [syncLoop] at h
      by_cases hf : f r.video_id = true
      · rw [if_pos hf] at h
        exact Except.noConfusion h
      · rw [if_neg hf] at h
        rcases hrec : syncLoop dt pt now f rest (nJ + 1) (nI + 1) with
          res | res
        · rw [hrec] at h
          exact Except.noConfusion h
        · obtain ⟨rows2, jobs2, nJ2, nI2⟩ := res
          rw [hrec] at h
          simp only [Except.ok.injEq, Prod.mk.injEq] at h
          rw [← h.1]
          simp only [List.map_cons]
          rw [ih (nJ + 1) (nI + 1) rows2 jobs2 nJ2 nI2 hrec]

theorem syncLoop_noFail_total (dt : DlType) (pt : String) (now : Nat)
    (l : List RemoteItem) :
    ∀ (nJ nI : Nat), ∃ rows jobs nJ' nI',
      syncLoop dt pt now (fun _ => false) l nJ nI =
        Except.ok (rows, jobs, nJ', nI') := by
  induction l with
  | nil =>
      intro nJ nI
      exact ⟨[], [], nJ, nI, rfl⟩
  | cons r rest ih =>
      intro nJ nI
      obtain ⟨rows, jobs, nJ', nI', hrec⟩ := ih (nJ + 1) (nI + 1)
      simp only [syncLoop, if_neg (show ¬ (false = true) by simp), hrec]
      exact ⟨_, _, _, _, rfl⟩

theorem syncLoop_error_shape (dt : DlType) (pt : String) (now : Nat)
    (f : String → Bool) (l : List RemoteItem) :
    ∀ (nJ nI : Nat) jobs nJ' nI',
      syncLoop dt pt now f l nJ nI = Except.error (jobs, nJ', nI') →
      jobs.length = (l.takeWhile fun r => ! f r.video_id).length ∧
      ∀ jb ∈ jobs, nJ ≤ jb.id := by
  induction l with
  | nil =>
      intro nJ nI jobs nJ' nI' h
      exact Except.noConfusion h
  | cons r rest ih =>
      intro nJ nI jobs nJ' nI' h
      simp only [syncLoop] at h
      by_cases hf : f r.video_id = true
      · rw [if_pos hf] at h
        simp only [Except.error.injEq, Prod.mk.injEq] at h
        rw [← h.1]
        constructor
        · rw [List.takeWhile_cons_of_neg (by simp [hf])]
          rfl
        · intro jb hjb
          exact absurd hjb (by simp)
      · rw [if_neg hf] at h
        rcases hrec : syncLoop dt pt now f rest (nJ + 1) (nI + 1) with
          res | res
        · obtain ⟨jobs2, nJ2, nI2⟩ := res
          rw [hrec] at h
          simp only [Except.error.injEq, Prod.mk.injEq] at h
          obtain ⟨hjl, hrest⟩ := ih (nJ + 1) (nI + 1) jobs2 nJ2 nI2 hrec
          rw [← h.1]
          constructor
          · rw [List.takeWhile_cons_of_pos (by simp [hf])]
            simp [hjl]
          · intro jb hjb
            rcases List.mem_cons.mp hjb with hjb | hjb
            · rw [hjb]
              exact Nat.le_refl nJ
            · exact Nat.le_of_succ_le (hrest jb hjb)
        · rw [hrec] at h
          exact Except.noConfusion h

theorem syncLoop_error_of_fail (dt : DlType) (pt : String) (now : Nat)
    (f : String → Bool) (l : List RemoteItem) :
    ∀ (nJ nI : Nat), (∃ r ∈ l, f r.video_id = true) →
      ∃ jobs nJ' nI',
        syncLoop dt pt now f l nJ nI = Except.error (jobs, nJ', nI') := by
  induction l with
  | nil =>
      intro nJ nI hfail
      obtain ⟨r, hr, _⟩ := hfail
      exact absurd hr (by simp)
  | cons r rest ih =>
      intro nJ nI hfail
      by_cases hf : f r.video_id = true
      · refine ⟨[], nJ, nI + 1, ?_⟩
        simp only [syncLoop, if_pos hf]
      · obtain ⟨r0, hr0, hf0⟩ := hfail
        rcases List.mem_cons.mp hr0 with hr0 | hr0
        · rw [hr0] at hf0
          exact absurd hf0 hf
        · obtain ⟨jobs, nJ', nI', hrec⟩ := ih (nJ + 1) (nI + 1) ⟨r0, hr0, hf0⟩
          simp only [syncLoop, if_neg hf, hrec]
          exact ⟨_, _, _, rfl⟩

/-- The result of a sync always extends the item list on the right with
rows whose video ids were not present before. -/
theorem sync_items_decomp (s : SyncState) (now : Nat)
    (fetch : Except String (List RemoteItem)) (f : String → Bool) :
    ∃ rows, (sync_single_playlist s now fetch f).2.items = s.items ++ rows ∧
      ∀ row ∈ rows, ∀ it ∈ s.items,
        row.youtube_video_id ≠ it.youtube_video_id := by
  rcases fetch with err | yt
  · exact ⟨[], (List.append_nil s.items).symm, by simp⟩
  · simp only [sync_single_playlist]
    by_cases hempty : (newItemsOf s.items yt).isEmpty = true
    · rw [if_pos hempty]
      exact ⟨[], (List.append_nil s.items).symm, by simp⟩
    · rw [if_neg hempty]
      rcases hloop : syncLoop s.download_type s.playlist_title now f
          (newItemsOf s.items yt) s.nextJobId s.nextItemId with res | res
      · obtain ⟨jobs, nJ, nI⟩ := res
        exact ⟨[], (List.append_nil s.items).symm, by simp⟩
      · obtain ⟨rows, jobs, nJ, nI⟩ := res
        refine ⟨rows, rfl, ?_⟩
        intro row hrow it hit
        have hvid : row.youtube_video_id ∈
            (newItemsOf s.items yt).map (fun r => r.video_id) := by
          rw [← syncLoop_ok_shape s.download_type s.playlist_title now f
            (newItemsOf s.items yt) s.nextJobId s.nextItemId rows jobs nJ nI
            hloop]
          exact List.mem_map_of_mem _ hrow
        obtain ⟨r, hr, hrv⟩ := List.mem_map.mp hvid
        have hnotin := (mem_newItemsOf.mp hr).2
        intro hcontra
        refine hnotin ?_
        rw [hrv, hcontra]
        exact List.mem_map_of_mem _ hit

theorem newItemsOf_nil_covers {items : List PlaylistItem}
    {yt : List RemoteItem} (h : newItemsOf items yt = []) :
    ∀ r ∈ yt, r.video_id ∈ items.map (fun it => it.youtube_video_id) := by
  rw [newItemsOf, List.filter_eq_nil_iff] at h
  intro r hr
  have := h r hr
  simpa using this

/-- C3, counterexample to the claim as stated: video "v" already exists
locally at position 0 and the remote list reports it at position 5, yet the
sync leaves the local row exactly as it was — the position is not
updated. -/
theorem position_not_updated :
    (sync_single_playlist stateV 7 (Except.ok [remoteV5])
        (fun _ => false)).2.items = [itemV] ∧
      itemV.position = 0 ∧ remoteV5.position = 5 ∧
      remoteV5.video_id = itemV.youtube_video_id :=
  ⟨rfl, rfl, rfl, rfl⟩

/-- C3, amended: a remote item whose remoteItemID already exists locally is
skipped entirely — the sync changes nothing at all about the existing local
row, its position included; the item list is only ever extended on the
right with rows for video ids that were not present before. -/
theorem sync_existing_items_untouched (s : SyncState) (now : Nat)
    (fetch : Except String (List RemoteItem)) (f : String → Bool) :
    ∃ rows, (sync_single_playlist s now fetch f).2.items = s.items ++ rows ∧
      ∀ row ∈ rows, ∀ it ∈ s.items,
        row.youtube_video_id ≠ it.youtube_video_id :=
  sync_items_decomp s now fetch f

/-- C4, counterexample to the claim as stated: with remote items [a, b]
(both new) and job creation failing for "a", the sync aborts with
nothing persisted — no PlaylistItem and no Job is created for the later
item "b" either. -/
theorem item_failure_blocks_rest :
    (sync_single_playlist emptySync 3 (Except.ok [remoteA, remoteB])
        (fun v => v == "a")).1 = false ∧
    (sync_single_playlist emptySync 3 (Except.ok [remoteA, remoteB])
        (fun v => v == "a")).2.items = [] ∧
    (sync_single_playlist emptySync 3 (Except.ok [remoteA, remoteB])
        (fun v => v == "a")).2.jobs = [] :=
  ⟨rfl, rfl, rfl⟩

/-- C4, amended: a failure while processing one new item aborts the whole
sync attempt — the loop has no per-item handler, so the exception reaches
the outer handler, which rolls the session back (no PlaylistItem rows are
persisted, lastSyncedAt is not updated) and re-raises; the remaining new
items are not processed.  Only the Jobs already committed by `add_job`
survive (see the orphan-jobs theorem). -/
theorem sync_item_failure_aborts (s : SyncState) (now : Nat)
    (remote : List RemoteItem) (f : String → Bool)
    (hfail : ∃ r ∈ newItemsOf s.items remote, f r.video_id = true) :
    (sync_single_playlist s now (Except.ok remote) f).1 = false ∧
    (sync_single_playlist s now (Except.ok remote) f).2.items = s.items ∧
    (sync_single_playlist s now (Except.ok remote) f).2.last_synced_at =
      s.last_synced_at := by
  have hne : ¬ (newItemsOf s.items remote).isEmpty = true := by
    intro hempty
    rw [List.isEmpty_iff] at hempty
    obtain ⟨r, hr, _⟩ := hfail
    rw [hempty] at hr
    exact absurd hr (by simp)
  obtain ⟨jobs, nJ2, nI2, herr⟩ := syncLoop_error_of_fail s.download_type
    s.playlist_title now f (newItemsOf s.items remote) s.nextJobId
    s.nextItemId hfail
  have hres : sync_single_playlist s now (Except.ok remote) f =
      (false, { s with
        jobs := s.jobs ++ jobs
        nextJobId := nJ2
        nextItemId := nI2 }) := by
    simp only [sync_single_playlist, if_neg hne, herr]
  rw [hres]
  exact ⟨rfl, rfl, rfl⟩

/-- C4 amended, witness: the concrete failing sync over [a, b] returns
failure with the item table and lastSyncedAt unchanged. -/
theorem sync_item_failure_aborts_witness :
    (sync_single_playlist emptySync 3 (Except.ok [remoteA, remoteB])
        (fun v => v == "a")).1 = false ∧
    (sync_single_playlist emptySync 3 (Except.ok [remoteA, remoteB])
        (fun v => v == "a")).2.items = emptySync.items ∧
    (sync_single_playlist emptySync 3 (Except.ok [remoteA, remoteB])
        (fun v => v == "a")).2.last_synced_at = emptySync.last_synced_at :=
  sync_item_failure_aborts emptySync 3 [remoteA, remoteB]
    (fun v => v == "a") ⟨remoteA, by decide, rfl⟩

/-- C5: a second sync with an unchanged remote list is a no-op for item and
job creation — after any first sync (whose per-item steps all succeed), the
diff by remoteItemID membership is empty on the second run, so the item
table and the job table are exactly those left by the first run, whatever
the second run's job-failure oracle would have done. -/
theorem sync_idempotent (s : SyncState) (now now2 : Nat)
    (remote : List RemoteItem) (g : String → Bool) :
    (sync_single_playlist (sync_single_playlist s now (Except.ok remote)
        (fun _ => false)).2 now2 (Except.ok remote) g).2.items =
      (sync_single_playlist s now (Except.ok remote)
        (fun _ => false)).2.items ∧
    (sync_single_playlist (sync_single_playlist s now (Except.ok remote)
        (fun _ => false)).2 now2 (Except.ok remote) g).2.jobs =
      (sync_single_playlist s now (Except.ok remote)
        (fun _ => false)).2.jobs := by
  set s1 := (sync_single_playlist s now (Except.ok remote)
    (fun _ => false)).2 with hs1
  have hcov : ∀ r ∈ remote, r.video_id ∈
      (s1.items).map (fun it => it.youtube_video_id) := by
    rw [hs1]
    by_cases hempty : (newItemsOf s.items remote).isEmpty = true
    · have hnil : newItemsOf s.items remote = [] := by
        rwa [List.isEmpty_iff] at hempty
      have hitems : (sync_single_playlist s now (Except.ok remote)
          (fun _ => false)).2.items = s.items := by
        simp only [sync_single_playlist, if_pos hempty]
      rw [hitems]
      exact newItemsOf_nil_covers hnil
    · obtain ⟨rows, jobs, nJ2, nI2, hok⟩ := syncLoop_noFail_total
        s.download_type s.playlist_title now (newItemsOf s.items remote)
        s.nextJobId s.nextItemId
      have hitems : (sync_single_playlist s now (Except.ok remote)
          (fun _ => false)).2.items = s.items ++ rows := by
        simp only [sync_single_playlist, if_neg hempty, hok]
      rw [hitems]
      intro r hr
      rw [List.map_append]
      by_cases hin : r.video_id ∈
          s.items.map (fun it => it.youtube_video_id)
      · exact List.mem_append_left _ hin
      · refine List.mem_append_right _ ?_
        rw [syncLoop_ok_shape s.download_type s.playlist_title now
          (fun _ => false) (newItemsOf s.items remote) s.nextJobId
          s.nextItemId rows jobs nJ2 nI2 hok]
        exact List.mem_map_of_mem _ (mem_newItemsOf.mpr ⟨hr, hin⟩)
  have hnil2 : newItemsOf s1.items remote = [] := newItemsOf_eq_nil hcov
  have h2 : sync_single_playlist s1 now2 (Except.ok remote) g =
      (true, { s1 with last_synced_at := some now2 }) := by
    simp only [sync_single_playlist, hnil2]
    rfl
  rw [h2]
  exact ⟨rfl, rfl⟩

/-- C9: the sync never deletes a PlaylistItem — any row present before a
sync (successful, aborted, or with an extractor failure) is still present
afterwards, even when the remote list no longer mentions its video. -/
theorem sync_never_deletes (s : SyncState) (now : Nat)
    (fetch : Except String (List RemoteItem)) (f : String → Bool)
    (it : PlaylistItem) (h : it ∈ s.items) :
    it ∈ (sync_single_playlist s now fetch f).2.items := by
  obtain ⟨rows, heq, _⟩ := sync_items_decomp s now fetch f
  rw [heq]
  exact List.mem_append_left _ h

/-- C9 witness: the concrete item for video "v" survives a sync whose
remote list still mentions "v"; and it also survives a sync whose remote
list is empty (the remote playlist dropped the item). -/
theorem sync_never_deletes_witness :
    itemV ∈ (sync_single_playlist stateV 7 (Except.ok [])
      (fun _ => false)).2.items :=
  sync_never_deletes stateV 7 (Except.ok []) (fun _ => false) itemV
    (List.mem_singleton.mpr rfl)

/-- C10: when a per-item job creation fails mid-loop, the sync raises and
its session rollback discards every newly buffered PlaylistItem row and the
lastSyncedAt update, but the Jobs already committed by `add_job` (one per
new item processed before the failing one — `add_job` commits immediately
in its own session when called without a caller session, as the reconciler
does) remain in the job table, and no PlaylistItem references their ids. -/
theorem sync_failure_leaves_orphan_jobs (s : SyncState) (now : Nat)
    (remote : List RemoteItem) (f : String → Bool)
    (hwf : ∀ it ∈ s.items, ∀ d, it.download_id = some d → d < s.nextJobId)
    (hfail : ∃ r ∈ newItemsOf s.items remote, f r.video_id = true) :
    (sync_single_playlist s now (Except.ok remote) f).1 = false ∧
    (sync_single_playlist s now (Except.ok remote) f).2.items = s.items ∧
    (sync_single_playlist s now (Except.ok remote) f).2.last_synced_at =
      s.last_synced_at ∧
    ∃ newJobs,
      (sync_single_playlist s now (Except.ok remote) f).2.jobs =
        s.jobs ++ newJobs ∧
      newJobs.length = ((newItemsOf s.items remote).takeWhile
        fun r => ! f r.video_id).length ∧
      ∀ jb ∈ newJobs,
        ∀ it ∈ (sync_single_playlist s now (Except.ok remote) f).2.items,
          it.download_id ≠ some jb.id := by
  have hne : ¬ (newItemsOf s.items remote).isEmpty = true := by
    intro hempty
    rw [List.isEmpty_iff] at hempty
    obtain ⟨r, hr, _⟩ := hfail
    rw [hempty] at hr
    exact absurd hr (by simp)
  obtain ⟨jobs, nJ2, nI2, herr⟩ := syncLoop_error_of_fail s.download_type
    s.playlist_title now f (newItemsOf s.items remote) s.nextJobId
    s.nextItemId hfail
  obtain ⟨hlen, hge⟩ := syncLoop_error_shape s.download_type
    s.playlist_title now f (newItemsOf s.items remote) s.nextJobId
    s.nextItemId jobs nJ2 nI2 herr
  have hres : sync_single_playlist s now (Except.ok remote) f =
      (false, { s with
        jobs := s.jobs ++ jobs
        nextJobId := nJ2
        nextItemId := nI2 }) := by
    simp only [sync_single_playlist, if_neg hne, herr]
  rw [hres]
  refine ⟨rfl, rfl, rfl, jobs, rfl, hlen, ?_⟩
  intro jb hjb it hit hcontra
  have hd := hwf it hit jb.id hcontra
  exact absurd hd (Nat.not_lt.mpr (hge jb hjb))

/-- C10 witness: syncing [a, b] into an empty store with job creation
failing for "b" leaves exactly one orphaned Job (for "a") and no
PlaylistItem rows. -/
theorem sync_failure_leaves_orphan_jobs_witness :
    (sync_single_playlist emptySync 3 (Except.ok [remoteA, remoteB])
        (fun v => v == "b")).1 = false ∧
    (sync_single_playlist emptySync 3 (Except.ok [remoteA, remoteB])
        (fun v => v == "b")).2.items = emptySync.items ∧
    (sync_single_playlist emptySync 3 (Except.ok [remoteA, remoteB])
        (fun v => v == "b")).2.last_synced_at = emptySync.last_synced_at ∧
    ∃ newJobs,
      (sync_single_playlist emptySync 3 (Except.ok [remoteA, remoteB])
          (fun v => v == "b")).2.jobs = emptySync.jobs ++ newJobs ∧
      newJobs.length = ((newItemsOf emptySync.items [remoteA, remoteB]).takeWhile
        fun r => ! (fun v => v == "b") r.video_id).length ∧
      ∀ jb ∈ newJobs,
        ∀ it ∈ (sync_single_playlist emptySync 3
            (Except.ok [remoteA, remoteB]) (fun v => v == "b")).2.items,
          it.download_id ≠ some jb.id :=
  sync_failure_leaves_orphan_jobs emptySync 3 [remoteA, remoteB]
    (fun v => v == "b")
    (fun it hit => absurd hit (List.not_mem_nil it))
    ⟨remoteB, by decide, rfl⟩

end Boatflix
